import Mathlib

/-!
Verification of the peptide-match evaluation engine of NovoBench
(`pynovo/metrics/evaluate.py`): the tokenizer `split_peptide`, the two-pass
greedy aligner (`aa_match_prefix` / `aa_match`), the batch evaluator
`aa_match_batch` and the metric aggregator `aa_match_metrics`.

Peptide tokens are modelled as `List Char`, masses as exact rationals `ℚ`.
The helper `mass_diff(m1, m2, True)` from `spectrum_utils.utils` (Dalton
mode) is plain subtraction `m1 - m2`.
-/

namespace NovoBench

/-- An amino-acid token: an opaque string, compared by exact equality. -/
abbrev Token := List Char

/-- The token → mass dictionary (`aa_dict`), as an association list. -/
abbrev MassTable := List (Token × ℚ)

/-- Python `aa_dict.get(tok, 0)`: mass lookup defaulting to `0`. -/
def massOf (table : MassTable) (tok : Token) : ℚ :=
  match table.find? (fun kv => kv.1 == tok) with
  | some kv => kv.2
  | none => 0

/-- Python `tok in aa_dict.keys()`. -/
def hasKey (table : MassTable) (tok : Token) : Bool :=
  table.any (fun kv => kv.1 == tok)

/-- The helper `spectrum_utils.utils.mass_diff(m1, m2, True)` (Dalton mode):
plain subtraction. -/
def massDiff (m1 m2 : ℚ) : ℚ :=
  m1 - m2

/-- The three boolean arrays threaded through the alignment walk of
`aa_match_prefix` / `aa_match`: `aa_matches`, `ptm_matches_1`,
`ptm_matches_2` from `evaluate.py`. -/
structure AlignState where
  aa : List Bool
  ptm1 : List Bool
  ptm2 : List Bool
deriving Repr, DecidableEq

/-- The forward while-loop of `aa_match_prefix` (evaluate.py lines 63-82):
pointers `i1, i2` walk the two token lists with running cumulative masses
`c1, c2`; when the hypothetical cumulative masses agree within `cumTol`, a
match flag `|m1 - m2| < indTol` is written at index `max i1 i2` (with the
PTM flags when it is true) and both sides advance; otherwise only the side
whose cumulative mass is behind advances.

The loop recurses structurally on a `fuel` argument so that the function
is kernel-computable.  Every iteration strictly decreases
`(|p1| - i1) + (|p2| - i2)`, so the entry call in `aa_match_fwd`, which
supplies `fuel = |p1| + |p2|`, never reaches the exhausted-fuel branch
(`fwdLoop_fuel_eq` below proves this independence). -/
def fwdLoop (p1 p2 : List Token) (table : MassTable) (ptmList : List Token)
    (cumTol indTol : ℚ) : Nat → Nat → Nat → ℚ → ℚ → AlignState → AlignState
  | 0, _, _, _, _, st => st
  | fuel + 1, i1, i2, c1, c2, st =>
    if h : i1 < p1.length ∧ i2 < p2.length then
      let m1 := massOf table (p1.get ⟨i1, h.1⟩)
      let m2 := massOf table (p2.get ⟨i2, h.2⟩)
      if |massDiff (c1 + m1) (c2 + m2)| < cumTol then
        let idx := max i1 i2
        let ok := |massDiff m1 m2| < indTol
        fwdLoop p1 p2 table ptmList cumTol indTol fuel (i1 + 1) (i2 + 1)
          (c1 + m1) (c2 + m2)
          { aa := st.aa.set idx ok
            ptm1 := if ok then st.ptm1.set idx (ptmList.contains (p1.get ⟨i1, h.1⟩)) else st.ptm1
            ptm2 := if ok then st.ptm2.set idx (ptmList.contains (p2.get ⟨i2, h.2⟩)) else st.ptm2 }
      else if c2 + m2 > c1 + m1 then
        fwdLoop p1 p2 table ptmList cumTol indTol fuel (i1 + 1) i2 (c1 + m1) c2 st
      else
        fwdLoop p1 p2 table ptmList cumTol indTol fuel i1 (i2 + 1) c1 (c2 + m2) st
    else st

/-- `aa_match_prefix` (evaluate.py lines 23-83): run the forward loop from
zeroed arrays of length `max |p1| |p2|`; return
`(aa_matches, ptm_matches_1, ptm_matches_2, aa_matches.all())`. -/
def aa_match_fwd (p1 p2 : List Token) (table : MassTable) (ptmList : List Token)
    (cumTol indTol : ℚ) : List Bool × List Bool × List Bool × Bool :=
  let n := max p1.length p2.length
  let st := fwdLoop p1 p2 table ptmList cumTol indTol (p1.length + p2.length)
    0 0 0 0
    ⟨List.replicate n false, List.replicate n false, List.replicate n false⟩
  (st.aa, st.ptm1, st.ptm2, st.aa.all (fun b => b))

/-- The backward while-loop of `aa_match` (evaluate.py lines 131-153).
Python's pointers `i1, i2` (which run down to `-1`) are shifted by one:
`j1 = i1 + 1`, `j2 = i2 + 1`, so the loop guard `i1 >= i_stop and i2 >=
i_stop` becomes `iStop < j1 ∧ iStop < j2`.  The bounds `j1 ≤ |p1|`,
`j2 ≤ |p2|` hold at the entry call (`j1 = |p1|`, `j2 = |p2|`) and pointers
only decrease, so carrying them in the guard does not change any reachable
computation; they make the list accesses well-defined.  As with `fwdLoop`,
`fuel` only drives the structural recursion: every iteration decreases
`j1 + j2`, so the entry call's `fuel = |p1| + |p2|` is never exhausted
(`bwdLoop_fuel_eq` below). -/
def bwdLoop (p1 p2 : List Token) (table : MassTable) (ptmList : List Token)
    (cumTol indTol : ℚ) (iStop : Nat) :
    Nat → Nat → Nat → ℚ → ℚ → AlignState → AlignState
  | 0, _, _, _, _, st => st
  | fuel + 1, j1, j2, c1, c2, st =>
    if h : iStop < j1 ∧ iStop < j2 ∧ j1 ≤ p1.length ∧ j2 ≤ p2.length then
      let m1 := massOf table (p1.get ⟨j1 - 1, by omega⟩)
      let m2 := massOf table (p2.get ⟨j2 - 1, by omega⟩)
      if |massDiff (c1 + m1) (c2 + m2)| < cumTol then
        let idx := max (j1 - 1) (j2 - 1)
        let ok := |massDiff m1 m2| < indTol
        bwdLoop p1 p2 table ptmList cumTol indTol iStop fuel (j1 - 1) (j2 - 1)
          (c1 + m1) (c2 + m2)
          { aa := st.aa.set idx ok
            ptm1 := if ok then st.ptm1.set idx (ptmList.contains (p1.get ⟨j1 - 1, by omega⟩)) else st.ptm1
            ptm2 := if ok then st.ptm2.set idx (ptmList.contains (p2.get ⟨j2 - 1, by omega⟩)) else st.ptm2 }
      else if c2 + m2 > c1 + m1 then
        bwdLoop p1 p2 table ptmList cumTol indTol iStop fuel (j1 - 1) j2 (c1 + m1) c2 st
      else
        bwdLoop p1 p2 table ptmList cumTol indTol iStop fuel j1 (j2 - 1) c1 (c2 + m2) st
    else st

/-- `aa_match` (evaluate.py lines 86-156): forward pass, early return on a
full match, otherwise a backward pass from the tails down to the first
unmatched index (`i_stop = np.argwhere(~aa_matches)[0]`).  The `mode`
parameter is accepted but never used, exactly as in the source.  Returns
`(aa_matches, pep_match, ptm_matches_1, ptm_matches_2)`. -/
def aa_match (p1 p2 : List Token) (table : MassTable) (ptmList : List Token)
    (cumTol indTol : ℚ) (mode : String) :
    List Bool × Bool × List Bool × List Bool :=
  match aa_match_fwd p1 p2 table ptmList cumTol indTol with
  | (aa, q1, q2, pep) =>
    if pep then (aa, pep, q1, q2)
    else
      let iStop := aa.findIdx (fun b => !b)
      let st := bwdLoop p1 p2 table ptmList cumTol indTol iStop
        (p1.length + p2.length) p1.length p2.length 0 0 ⟨aa, q1, q2⟩
      (st.aa, st.aa.all (fun b => b), st.ptm1, st.ptm2)

/-- The length of the token held by an `Option Token`, `0` for `none`;
used to pick the longest matching key. -/
def keyLen : Option Token → Nat
  | some k => k.length
  | none => 0

/-- The longest non-empty table key that is a leading piece of `s`, if any.
This is what Python's `re.findall` alternation computes at one scan
position in `split_peptide`: the keys are sorted by decreasing length, so
the first alternative that matches is the longest key matching there (two
distinct keys of equal length cannot both match the same position). -/
def bestKey (s : List Char) : List Token → Option Token
  | [] => none
  | k :: ks =>
    let b := bestKey s ks
    if 0 < k.length ∧ k.isPrefixOf s = true ∧ keyLen b < k.length then some k
    else b

/-- The left-to-right scan performed by `re.findall` in `split_peptide`:
at each position consume the longest matching key, or (as the regex engine
does when no alternative matches) skip one character.  Returns the consumed
tokens and the number of skipped characters.  Structural recursion on
`fuel`; every step consumes at least one character, so the entry call in
`split_peptide` with `fuel = |s|` never exhausts it (`greedyScan_fuel_eq`
below). -/
def greedyScan (keys : List Token) : Nat → List Char → List Token × Nat
  | 0, _ => ([], 0)
  | _, [] => ([], 0)
  | fuel + 1, c :: cs =>
    match bestKey (c :: cs) keys with
    | some k =>
      let r := greedyScan keys fuel (List.drop k.length (c :: cs))
      (k :: r.1, r.2)
    | none =>
      let r := greedyScan keys fuel cs
      (r.1, r.2 + 1)

/-- `split_peptide` (evaluate.py lines 9-21): greedy longest-match
segmentation of the raw peptide string against the table keys; fails when
the concatenation of the consumed tokens does not reconstruct the input. -/
def split_peptide (s : List Char) (table : MassTable) :
    Except String (List Token) :=
  let parts := (greedyScan (table.map Prod.fst) s.length s).1
  if parts.flatten = s then .ok parts else .error "TokenizationError"

/-- A peptide handed to the batch evaluator: either a raw string (to be
tokenized) or an already tokenized list, mirroring the `isinstance(..., str)`
test in `aa_match_batch`. -/
inductive PepIn where
  | raw (s : List Char)
  | toks (t : List Token)

/-- Resolve one batch input to a token list (evaluate.py lines 217-220). -/
def resolvePep (table : MassTable) : PepIn → Except String (List Token)
  | .raw s => split_peptide s table
  | .toks t => .ok t

/-- One pair's verdict as `aa_match_batch` records it
(evaluate.py lines 228-242): an all-false verdict of the truth's length when
the prediction is empty, otherwise the output of `aa_match`. -/
def pairVerdict (p1 p2 : List Token) (table : MassTable) (ptmList : List Token)
    (cumTol indTol : ℚ) (mode : String) :
    List Bool × Bool × List Bool × List Bool :=
  if p2.length = 0 then
    (List.replicate p1.length false, false,
     List.replicate p1.length false, List.replicate p1.length false)
  else
    aa_match p1 p2 table ptmList cumTol indTol mode

/-- The per-pair loop of `aa_match_batch` (evaluate.py lines 215-243) over
the zipped input lists, accumulating the verdict list, the amino-acid
counts of both sides and the PTM token counts of both sides. -/
def batchLoop (table : MassTable) (ptmList : List Token) (cumTol indTol : ℚ)
    (mode : String) :
    List (PepIn × PepIn) → Except String
      (List (List Bool × Bool × List Bool × List Bool) × Nat × Nat × Nat × Nat)
  | [] => .ok ([], 0, 0, 0, 0)
  | (q1, q2) :: rest =>
    match resolvePep table q1 with
    | .error e => .error e
    | .ok p1 =>
      match resolvePep table q2 with
      | .error e => .error e
      | .ok p2 =>
        match batchLoop table ptmList cumTol indTol mode rest with
        | .error e => .error e
        | .ok r =>
          .ok (pairVerdict p1 p2 table ptmList cumTol indTol mode :: r.1,
               p1.length + r.2.1, p2.length + r.2.2.1,
               p1.countP (fun aa => ptmList.contains aa) + r.2.2.2.1,
               p2.countP (fun aa => ptmList.contains aa) + r.2.2.2.2)

/-- `aa_match_batch` (evaluate.py lines 159-243): check up front that every
configured PTM token is a key of the mass table (raising otherwise, before
touching any pair), then run the per-pair loop over `zip(peptides1,
peptides2)`. -/
def aa_match_batch (peps1 peps2 : List PepIn) (table : MassTable)
    (ptmList : List Token) (cumTol indTol : ℚ) (mode : String) :
    Except String
      (List (List Bool × Bool × List Bool × List Bool) × Nat × Nat × Nat × Nat) :=
  match ptmList.find? (fun ptm => !hasKey table ptm) with
  | some _ => .error "ConfigurationError"
  | none => batchLoop table ptmList cumTol indTol mode (peps1.zip peps2)

/-- Number of `true` entries of a boolean array (`numpy` `.sum()` on bools). -/
def countTrue (l : List Bool) : Nat :=
  l.countP (fun b => b)

/-- The denominator guard `1e-8` of `aa_match_metrics`, as an exact rational. -/
def eps : ℚ :=
  1 / 100000000

/-- Insert one `(score, pep_match)` pair into a list sorted by decreasing
score, after every entry with a score `≥` its own; together with
`sortDesc` this reproduces Python's stable
`sorted(..., key=score, reverse=True)`. -/
def insertDesc (x : ℚ × Bool) : List (ℚ × Bool) → List (ℚ × Bool)
  | [] => [x]
  | y :: ys => if y.1 < x.1 then x :: y :: ys else y :: insertDesc x ys

/-- Stable sort by decreasing score (see `insertDesc`). -/
def sortDesc : List (ℚ × Bool) → List (ℚ × Bool)
  | [] => []
  | x :: xs => insertDesc x (sortDesc xs)

/-- The precision-recall points of `aa_match_metrics`: for the `k`-th
ranked prediction (0-based `k`, cumulative match count `cum`),
`recall = cum' / n` and `precision = cum' / (k+1)` where `cum'` counts the
matches among the first `k+1` ranked pairs (`np.cumsum(...) / np.arange(1,
n+1)` and `np.cumsum(...) / n`).  Points are `(recall, precision)`, the
`(x, y)` order taken by `sklearn.metrics.auc(recall, precision)`. -/
def prPoints (n : ℚ) : List Bool → Nat → Nat → List (ℚ × ℚ)
  | [], _, _ => []
  | b :: rest, cum, k =>
    let cum' := cum + (if b then 1 else 0)
    ((cum' : ℚ) / n, (cum' : ℚ) / ((k + 1 : Nat) : ℚ)) ::
      prPoints n rest cum' (k + 1)

/-- Trapezoidal area under a polyline (`np.trapz(y, x)`, the integration
`sklearn.metrics.auc` performs once the x direction is ascending). -/
def trapz : List (ℚ × ℚ) → ℚ
  | p :: q :: rest => (q.1 - p.1) * (p.2 + q.2) / 2 + trapz (q :: rest)
  | _ => 0

/-- The six scalar outputs of `aa_match_metrics`. -/
structure MetricReport where
  aa_precision : ℚ
  aa_recall : ℚ
  pep_precision : ℚ
  ptm_recall : ℚ
  ptm_precision : ℚ
  curve_auc : ℚ
deriving Repr, DecidableEq

/-- `aa_match_metrics` (evaluate.py lines 246-333).  The `assert
len(scores) == len(pep_match_bool_list)` is the first error path; the
second is `sklearn.metrics.auc`, which needs at least two curve points.
All denominators carry the `1e-8` guard of the source. -/
def aa_match_metrics
    (batch : List (List Bool × Bool × List Bool × List Bool))
    (nAaTrue nAaPred nPtmTrue nPtmPred : Nat) (scores : List ℚ) :
    Except String MetricReport :=
  if scores.length ≠ batch.length then .error "AssertionError"
  else
    let nCorr : Nat := (batch.map (fun v => countTrue v.1)).sum
    let sortedBools :=
      (sortDesc (scores.zip (batch.map (fun v => v.2.1)))).map Prod.snd
    if sortedBools.length < 2 then .error "auc needs at least 2 points"
    else .ok
      { aa_precision := (nCorr : ℚ) / ((nAaPred : ℚ) + eps)
        aa_recall := (nCorr : ℚ) / ((nAaTrue : ℚ) + eps)
        pep_precision :=
          ((batch.countP (fun v => v.2.1) : ℚ)) / ((batch.length : ℚ) + eps)
        ptm_recall :=
          ((batch.map (fun v => countTrue v.2.2.1)).sum : ℚ) / ((nPtmTrue : ℚ) + eps)
        ptm_precision :=
          ((batch.map (fun v => countTrue v.2.2.2)).sum : ℚ) / ((nPtmPred : ℚ) + eps)
        curve_auc :=
          trapz (prPoints (sortedBools.length : ℚ) sortedBools 0 0) }

/-- Exchange of the two PTM-match arrays of an alignment state, used to
relate a run of the aligner with its arguments swapped to the original
run. -/
def swapSt (st : AlignState) : AlignState :=
  ⟨st.aa, st.ptm2, st.ptm1⟩

/-- Holds of a tokenizer result when a successful return reconstructs the
input string by concatenation (trivially true of a failure). -/
def reconstructsInput (r : Except String (List Token)) (s : List Char) : Prop :=
  match r with
  | .ok parts => parts.flatten = s
  | .error _ => True

/-- Holds of a metric-aggregator result when it succeeded and every metric
is within the stated range: all six are nonnegative, and `pep_precision`
and `curve_auc` are at most `1`. -/
def metricsInRange (r : Except String MetricReport) : Prop :=
  match r with
  | .ok m =>
    0 ≤ m.aa_precision ∧ 0 ≤ m.aa_recall ∧
    (0 ≤ m.pep_precision ∧ m.pep_precision ≤ 1) ∧
    0 ≤ m.ptm_recall ∧ 0 ≤ m.ptm_precision ∧
    (0 ≤ m.curve_auc ∧ m.curve_auc ≤ 1)
  | .error _ => False

/-! ### List helpers -/

theorem getD_set_ne (l : List Bool) (i j : Nat) (b : Bool) (h : i ≠ j) :
    (l.set i b).getD j false = l.getD j false := by
  simp [List.getD, List.getElem?_set_ne h]

theorem getD_set_self (l : List Bool) (i : Nat) (b : Bool) (h : i < l.length) :
    (l.set i b).getD i false = b := by
  simp [List.getD, List.getElem?_set_self, h]

theorem getD_replicate_false (n j : Nat) :
    (List.replicate n false).getD j false = false := by
  simp [List.getD]

theorem eq_of_getD_eq (l1 l2 : List Bool) (h : l1.length = l2.length)
    (hg : ∀ j, j < l1.length → l1.getD j false = l2.getD j false) :
    l1 = l2 := by
  apply List.ext_getElem h
  intro i h1 h2
  have := hg i h1
  simpa [List.getD, List.getElem?_eq_getElem, h1, h2] using this

/-! ### Fuel adequacy: the structural fuel of the three loops is never
exhausted when at least the stated measure is supplied, so any two
sufficient fuels give the same result. -/

theorem fwdLoop_fuel_eq (p1 p2 : List Token) (table : MassTable)
    (ptmList : List Token) (cumTol indTol : ℚ) :
    ∀ fuel fuel' i1 i2 c1 c2 st,
      (p1.length - i1) + (p2.length - i2) ≤ fuel →
      (p1.length - i1) + (p2.length - i2) ≤ fuel' →
      fwdLoop p1 p2 table ptmList cumTol indTol fuel i1 i2 c1 c2 st =
        fwdLoop p1 p2 table ptmList cumTol indTol fuel' i1 i2 c1 c2 st := by
  intro fuel
  induction fuel with
  | zero =>
    intro fuel' i1 i2 c1 c2 st hm hm'
    cases fuel' with
    | zero => rfl
    | succ f' =>
      rw [fwdLoop, fwdLoop]
      rw [dif_neg]
      omega
  | succ f ih =>
    intro fuel' i1 i2 c1 c2 st hm hm'
    cases fuel' with
    | zero =>
      rw [fwdLoop, fwdLoop]
      rw [dif_neg]
      omega
    | succ f' =>
      rw [fwdLoop, fwdLoop]
      by_cases h : i1 < p1.length ∧ i2 < p2.length
      · rw [dif_pos h, dif_pos h]
        dsimp only
        split_ifs <;> exact ih f' _ _ _ _ _ (by omega) (by omega)
      · rw [dif_neg h, dif_neg h]

theorem bwdLoop_fuel_eq (p1 p2 : List Token) (table : MassTable)
    (ptmList : List Token) (cumTol indTol : ℚ) (iStop : Nat) :
    ∀ fuel fuel' j1 j2 c1 c2 st,
      j1 + j2 ≤ fuel → j1 + j2 ≤ fuel' →
      bwdLoop p1 p2 table ptmList cumTol indTol iStop fuel j1 j2 c1 c2 st =
        bwdLoop p1 p2 table ptmList cumTol indTol iStop fuel' j1 j2 c1 c2 st := by
  intro fuel
  induction fuel with
  | zero =>
    intro fuel' j1 j2 c1 c2 st hm hm'
    cases fuel' with
    | zero => rfl
    | succ f' =>
      rw [bwdLoop, bwdLoop]
      rw [dif_neg]
      omega
  | succ f ih =>
    intro fuel' j1 j2 c1 c2 st hm hm'
    cases fuel' with
    | zero =>
      rw [bwdLoop, bwdLoop]
      rw [dif_neg]
      omega
    | succ f' =>
      rw [bwdLoop, bwdLoop]
      by_cases h : iStop < j1 ∧ iStop < j2 ∧ j1 ≤ p1.length ∧ j2 ≤ p2.length
      · rw [dif_pos h, dif_pos h]
        dsimp only
        split_ifs <;> exact ih f' _ _ _ _ _ (by omega) (by omega)
      · rw [dif_neg h, dif_neg h]

theorem bestKey_some {s : List Char} {keys : List Token} {k : Token}
    (h : bestKey s keys = some k) :
    0 < k.length ∧ k.isPrefixOf s = true := by
  induction keys with
  | nil => simp [bestKey] at h
  | cons k0 ks ih =>
    simp only [bestKey] at h
    split at h
    · rename_i hcond
      cases h
      exact ⟨hcond.1, hcond.2.1⟩
    · exact ih h

theorem isPrefixOf_length_le {k s : List Char} (h : k.isPrefixOf s = true) :
    k.length ≤ s.length := by
  induction k generalizing s with
  | nil => simp
  | cons a k ih =>
    cases s with
    | nil => simp [List.isPrefixOf] at h
    | cons b s =>
      simp only [List.isPrefixOf, Bool.and_eq_true] at h
      simpa using ih h.2

theorem isPrefixOf_append_drop {k s : List Char} (h : k.isPrefixOf s = true) :
    k ++ s.drop k.length = s := by
  induction k generalizing s with
  | nil => simp
  | cons a k ih =>
    cases s with
    | nil => simp [List.isPrefixOf] at h
    | cons b s =>
      simp only [List.isPrefixOf, Bool.and_eq_true, beq_iff_eq] at h
      simp [h.1, ih h.2]

theorem greedyScan_fuel_eq (keys : List Token) :
    ∀ fuel fuel' (s : List Char), s.length ≤ fuel → s.length ≤ fuel' →
      greedyScan keys fuel s = greedyScan keys fuel' s := by
  intro fuel
  induction fuel with
  | zero =>
    intro fuel' s hm hm'
    have : s = [] := List.length_eq_zero.mp (by omega)
    subst this
    cases fuel' <;> rfl
  | succ f ih =>
    intro fuel' s hm hm'
    cases s with
    | nil => cases fuel' <;> rfl
    | cons c cs =>
      cases fuel' with
      | zero => simp at hm'
      | succ f' =>
        rw [greedyScan, greedyScan]
        simp only [List.length_cons] at hm hm'
        cases hbk : bestKey (c :: cs) keys with
        | none =>
          dsimp only
          rw [ih f' cs (by omega) (by omega)]
        | some k =>
          dsimp only
          have hk := bestKey_some hbk
          have hkl : 0 < k.length := hk.1
          have hlen : (List.drop k.length (c :: cs)).length ≤ f := by
            simp only [List.length_drop, List.length_cons]
            omega
          have hlen' : (List.drop k.length (c :: cs)).length ≤ f' := by
            simp only [List.length_drop, List.length_cons]
            omega
          rw [ih f' _ hlen hlen']

/-! ### Shape invariants of the alignment loops -/

theorem fwdLoop_aa_length (p1 p2 : List Token) (table : MassTable)
    (ptmList : List Token) (cumTol indTol : ℚ) :
    ∀ fuel i1 i2 c1 c2 st,
      (fwdLoop p1 p2 table ptmList cumTol indTol fuel i1 i2 c1 c2 st).aa.length =
        st.aa.length := by
  intro fuel
  induction fuel with
  | zero => intro i1 i2 c1 c2 st; rfl
  | succ f ih =>
    intro i1 i2 c1 c2 st
    rw [fwdLoop]
    by_cases h : i1 < p1.length ∧ i2 < p2.length
    · rw [dif_pos h]
      dsimp only
      split_ifs <;> simp [ih]
    · rw [dif_neg h]

theorem bwdLoop_aa_length (p1 p2 : List Token) (table : MassTable)
    (ptmList : List Token) (cumTol indTol : ℚ) (iStop : Nat) :
    ∀ fuel j1 j2 c1 c2 st,
      (bwdLoop p1 p2 table ptmList cumTol indTol iStop fuel j1 j2 c1 c2 st).aa.length =
        st.aa.length := by
  intro fuel
  induction fuel with
  | zero => intro j1 j2 c1 c2 st; rfl
  | succ f ih =>
    intro j1 j2 c1 c2 st
    rw [bwdLoop]
    by_cases h : iStop < j1 ∧ iStop < j2 ∧ j1 ≤ p1.length ∧ j2 ≤ p2.length
    · rw [dif_pos h]
      dsimp only
      split_ifs <;> simp [ih]
    · rw [dif_neg h]

/-! ### C1: aligning a peptide against itself -/

theorem fwdLoop_self_getD (p : List Token) (table : MassTable)
    (ptmList : List Token) (cumTol indTol : ℚ)
    (hc : 0 < cumTol) (hi : 0 < indTol) :
    ∀ fuel k c st, st.aa.length = p.length →
      (p.length - k) + (p.length - k) ≤ fuel →
      ∀ j, ((fwdLoop p p table ptmList cumTol indTol fuel k k c c st).aa.getD j false) =
        if k ≤ j ∧ j < p.length then true else st.aa.getD j false := by
  intro fuel
  induction fuel with
  | zero =>
    intro k c st hlen hm j
    have hk : p.length ≤ k := by omega
    rw [if_neg (by omega)]
    rfl
  | succ f ih =>
    intro k c st hlen hm j
    rw [fwdLoop]
    by_cases h : k < p.length ∧ k < p.length
    · rw [dif_pos h]
      dsimp only
      have hd : massDiff (c + massOf table (p.get ⟨k, h.1⟩))
          (c + massOf table (p.get ⟨k, h.2⟩)) = 0 := by
        simp [massDiff]
      have hd2 : massDiff (massOf table (p.get ⟨k, h.1⟩))
          (massOf table (p.get ⟨k, h.2⟩)) = 0 := by
        simp [massDiff]
      rw [if_pos (by rw [hd]; simpa using hc)]
      have hok : decide (|massDiff (massOf table (p.get ⟨k, h.1⟩))
          (massOf table (p.get ⟨k, h.2⟩))| < indTol) = true := by
        rw [decide_eq_true_eq, hd2]
        simpa using hi
      rw [ih (k + 1) (c + massOf table (p.get ⟨k, h.1⟩)) _
        (by simpa using hlen) (by omega) j]
      rcases Nat.lt_trichotomy j k with hjk | hjk | hjk
      · rw [if_neg (show ¬(k + 1 ≤ j ∧ j < p.length) by omega),
          if_neg (show ¬(k ≤ j ∧ j < p.length) by omega)]
        dsimp only
        rw [getD_set_ne _ _ _ _ (show max k k ≠ j by omega)]
      · subst hjk
        rw [if_neg (show ¬(j + 1 ≤ j ∧ j < p.length) by omega),
          if_pos (show j ≤ j ∧ j < p.length by omega)]
        dsimp only
        have hmx : max j j = j := by omega
        rw [hmx, getD_set_self _ _ _ (by omega), hok]
      · by_cases hjl : j < p.length
        · rw [if_pos (show k + 1 ≤ j ∧ j < p.length by omega),
            if_pos (show k ≤ j ∧ j < p.length by omega)]
        · rw [if_neg (show ¬(k + 1 ≤ j ∧ j < p.length) by omega),
            if_neg (show ¬(k ≤ j ∧ j < p.length) by omega)]
          dsimp only
          rw [getD_set_ne _ _ _ _ (show max k k ≠ j by omega)]
    · rw [dif_neg h]
      rw [if_neg (show ¬(k ≤ j ∧ j < p.length) by omega)]

/-! ### C3: swapping the two peptides -/

theorem fwdLoop_const (p1 p2 : List Token) (table : MassTable)
    (ptmList : List Token) (cumTol indTol : ℚ) (hc : cumTol ≤ 0) :
    ∀ fuel i1 i2 c1 c2 st,
      fwdLoop p1 p2 table ptmList cumTol indTol fuel i1 i2 c1 c2 st = st := by
  intro fuel
  induction fuel with
  | zero => intro i1 i2 c1 c2 st; rfl
  | succ f ih =>
    intro i1 i2 c1 c2 st
    rw [fwdLoop]
    by_cases h : i1 < p1.length ∧ i2 < p2.length
    · rw [dif_pos h]
      dsimp only
      have hnc : ¬(|massDiff (c1 + massOf table (p1.get ⟨i1, h.1⟩))
          (c2 + massOf table (p2.get ⟨i2, h.2⟩))| < cumTol) := by
        intro hlt
        have hnn := abs_nonneg (massDiff (c1 + massOf table (p1.get ⟨i1, h.1⟩))
          (c2 + massOf table (p2.get ⟨i2, h.2⟩)))
        linarith
      rw [if_neg hnc]
      split_ifs <;> exact ih _ _ _ _ _
    · rw [dif_neg h]

theorem bwdLoop_const (p1 p2 : List Token) (table : MassTable)
    (ptmList : List Token) (cumTol indTol : ℚ) (iStop : Nat) (hc : cumTol ≤ 0) :
    ∀ fuel j1 j2 c1 c2 st,
      bwdLoop p1 p2 table ptmList cumTol indTol iStop fuel j1 j2 c1 c2 st = st := by
  intro fuel
  induction fuel with
  | zero => intro j1 j2 c1 c2 st; rfl
  | succ f ih =>
    intro j1 j2 c1 c2 st
    rw [bwdLoop]
    by_cases h : iStop < j1 ∧ iStop < j2 ∧ j1 ≤ p1.length ∧ j2 ≤ p2.length
    · rw [dif_pos h]
      dsimp only
      have hnc : ¬(|massDiff (c1 + massOf table (p1.get ⟨j1 - 1, by omega⟩))
          (c2 + massOf table (p2.get ⟨j2 - 1, by omega⟩))| < cumTol) := by
        intro hlt
        have hnn := abs_nonneg (massDiff (c1 + massOf table (p1.get ⟨j1 - 1, by omega⟩))
          (c2 + massOf table (p2.get ⟨j2 - 1, by omega⟩)))
        linarith
      rw [if_neg hnc]
      split_ifs <;> exact ih _ _ _ _ _
    · rw [dif_neg h]

theorem fwdLoop_swap (p1 p2 : List Token) (table : MassTable)
    (ptmList : List Token) (cumTol indTol : ℚ) (hc : 0 < cumTol) :
    ∀ fuel i1 i2 c1 c2 st,
      fwdLoop p2 p1 table ptmList cumTol indTol fuel i2 i1 c2 c1 (swapSt st) =
        swapSt (fwdLoop p1 p2 table ptmList cumTol indTol fuel i1 i2 c1 c2 st) := by
  intro fuel
  induction fuel with
  | zero => intro i1 i2 c1 c2 st; rfl
  | succ f ih =>
    intro i1 i2 c1 c2 st
    rw [fwdLoop, fwdLoop]
    by_cases h : i1 < p1.length ∧ i2 < p2.length
    · rw [dif_pos h, dif_pos ⟨h.2, h.1⟩]
      dsimp only
      set t1 := p1.get ⟨i1, h.1⟩ with ht1
      set t2 := p2.get ⟨i2, h.2⟩ with ht2
      set m1 := massOf table t1 with hm1
      set m2 := massOf table t2 with hm2
      have habs : |massDiff (c2 + m2) (c1 + m1)| = |massDiff (c1 + m1) (c2 + m2)| := by
        simp [massDiff, abs_sub_comm]
      have hiff : (|massDiff m2 m1| < indTol) ↔ (|massDiff m1 m2| < indTol) := by
        have : |massDiff m2 m1| = |massDiff m1 m2| := by
          simp [massDiff, abs_sub_comm]
        rw [this]
      by_cases hcum : |massDiff (c1 + m1) (c2 + m2)| < cumTol
      · have hcum' : |massDiff (c2 + m2) (c1 + m1)| < cumTol := by
          rw [habs]
          exact hcum
        rw [if_pos hcum, if_pos hcum']
        have step := ih (i1 + 1) (i2 + 1) (c1 + m1) (c2 + m2)
          ⟨st.aa.set (max i1 i2) (decide (|massDiff m1 m2| < indTol)),
           if |massDiff m1 m2| < indTol then
             st.ptm1.set (max i1 i2) (ptmList.contains t1) else st.ptm1,
           if |massDiff m1 m2| < indTol then
             st.ptm2.set (max i1 i2) (ptmList.contains t2) else st.ptm2⟩
        rw [← step]
        congr 1
        simp only [swapSt]
        have habs2 : |massDiff m2 m1| = |massDiff m1 m2| := by
          simp [massDiff, abs_sub_comm]
        rw [Nat.max_comm i2 i1, habs2]
      · have hcum' : ¬(|massDiff (c2 + m2) (c1 + m1)| < cumTol) := by
          rw [habs]
          exact hcum
        rw [if_neg hcum, if_neg hcum']
        have hne : c1 + m1 ≠ c2 + m2 := by
          intro heq
          apply hcum
          rw [heq]
          simpa [massDiff] using hc
        by_cases hgt : c2 + m2 > c1 + m1
        · have hngt : ¬(c1 + m1 > c2 + m2) := by
            intro hx
            exact absurd (lt_trans hx hgt) (lt_irrefl _)
          rw [if_pos hgt, if_neg hngt]
          exact ih _ _ _ _ _
        · have hgt' : c1 + m1 > c2 + m2 := by
            rcases lt_trichotomy (c1 + m1) (c2 + m2) with hx | hx | hx
            · exact absurd hx hgt
            · exact absurd hx hne
            · exact hx
          rw [if_neg hgt, if_pos hgt']
          exact ih _ _ _ _ _
    · rw [dif_neg h, dif_neg (fun hx => h ⟨hx.2, hx.1⟩)]

set_option maxHeartbeats 1600000 in
theorem bwdLoop_swap (p1 p2 : List Token) (table : MassTable)
    (ptmList : List Token) (cumTol indTol : ℚ) (iStop : Nat) (hc : 0 < cumTol) :
    ∀ fuel j1 j2 c1 c2 st,
      bwdLoop p2 p1 table ptmList cumTol indTol iStop fuel j2 j1 c2 c1 (swapSt st) =
        swapSt (bwdLoop p1 p2 table ptmList cumTol indTol iStop fuel j1 j2 c1 c2 st) := by
  intro fuel
  induction fuel with
  | zero => intro j1 j2 c1 c2 st; rfl
  | succ f ih =>
    intro j1 j2 c1 c2 st
    rw [bwdLoop, bwdLoop]
    by_cases h : iStop < j1 ∧ iStop < j2 ∧ j1 ≤ p1.length ∧ j2 ≤ p2.length
    · rw [dif_pos h, dif_pos ⟨h.2.1, h.1, h.2.2.2, h.2.2.1⟩]
      dsimp only
      set t1 := p1.get ⟨j1 - 1, by omega⟩ with ht1
      set t2 := p2.get ⟨j2 - 1, by omega⟩ with ht2
      set m1 := massOf table t1 with hm1
      set m2 := massOf table t2 with hm2
      have habs : |massDiff (c2 + m2) (c1 + m1)| = |massDiff (c1 + m1) (c2 + m2)| := by
        simp only [massDiff]
        exact abs_sub_comm _ _
      by_cases hcum : |massDiff (c1 + m1) (c2 + m2)| < cumTol
      · have hcum' : |massDiff (c2 + m2) (c1 + m1)| < cumTol := by
          rw [habs]
          exact hcum
        rw [if_pos hcum, if_pos hcum']
        have step := ih (j1 - 1) (j2 - 1) (c1 + m1) (c2 + m2)
          ⟨st.aa.set (max (j1 - 1) (j2 - 1)) (decide (|massDiff m1 m2| < indTol)),
           if |massDiff m1 m2| < indTol then
             st.ptm1.set (max (j1 - 1) (j2 - 1)) (ptmList.contains t1) else st.ptm1,
           if |massDiff m1 m2| < indTol then
             st.ptm2.set (max (j1 - 1) (j2 - 1)) (ptmList.contains t2) else st.ptm2⟩
        rw [← step]
        congr 1
        simp only [swapSt]
        have habs2 : |massDiff m2 m1| = |massDiff m1 m2| := by
          simp only [massDiff]
          exact abs_sub_comm _ _
        rw [Nat.max_comm (j2 - 1) (j1 - 1), habs2]
      · have hcum' : ¬(|massDiff (c2 + m2) (c1 + m1)| < cumTol) := by
          rw [habs]
          exact hcum
        rw [if_neg hcum, if_neg hcum']
        have hne : c1 + m1 ≠ c2 + m2 := by
          intro heq
          apply hcum
          rw [heq]
          simpa [massDiff] using hc
        by_cases hgt : c2 + m2 > c1 + m1
        · have hngt : ¬(c1 + m1 > c2 + m2) := by
            intro hx
            exact absurd (lt_trans hx hgt) (lt_irrefl _)
          rw [if_pos hgt, if_neg hngt]
          exact ih _ _ _ _ _
        · have hgt' : c1 + m1 > c2 + m2 := by
            rcases lt_trichotomy (c1 + m1) (c2 + m2) with hx | hx | hx
            · exact absurd hx hgt
            · exact absurd hx hne
            · exact hx
          rw [if_neg hgt, if_pos hgt']
          exact ih _ _ _ _ _
    · rw [dif_neg h, dif_neg (fun hx => h ⟨hx.2.1, hx.1, hx.2.2.2, hx.2.2.1⟩)]

theorem replicate_all_false {n : Nat} (hn : n ≠ 0) :
    (List.replicate n false).all (fun b => b) = false := by
  cases n with
  | zero => exact absurd rfl hn
  | succ m => simp

theorem replicate_findIdx_false {n : Nat} (hn : n ≠ 0) :
    (List.replicate n false).findIdx (fun b => !b) = 0 := by
  cases n with
  | zero => exact absurd rfl hn
  | succ m => simp [List.replicate_succ, List.findIdx_cons]

/-- Master form of the swap property: running `aa_match` with the two
peptides exchanged returns the same match array and whole-sequence flag,
and the two PTM-match arrays with their roles exchanged. -/
theorem aa_match_swap_eq (p1 p2 : List Token) (table : MassTable)
    (ptmList : List Token) (cumTol indTol : ℚ) (mode : String) :
    aa_match p2 p1 table ptmList cumTol indTol mode =
      ((aa_match p1 p2 table ptmList cumTol indTol mode).1,
       (aa_match p1 p2 table ptmList cumTol indTol mode).2.1,
       (aa_match p1 p2 table ptmList cumTol indTol mode).2.2.2,
       (aa_match p1 p2 table ptmList cumTol indTol mode).2.2.1) := by
  by_cases hc : 0 < cumTol
  · simp only [aa_match, aa_match_fwd]
    have h1 : fwdLoop p2 p1 table ptmList cumTol indTol
        (p2.length + p1.length) 0 0 0 0
        ⟨List.replicate (max p2.length p1.length) false,
         List.replicate (max p2.length p1.length) false,
         List.replicate (max p2.length p1.length) false⟩ =
        swapSt (fwdLoop p1 p2 table ptmList cumTol indTol
          (p1.length + p2.length) 0 0 0 0
          ⟨List.replicate (max p1.length p2.length) false,
           List.replicate (max p1.length p2.length) false,
           List.replicate (max p1.length p2.length) false⟩) := by
      rw [Nat.add_comm p2.length p1.length, Nat.max_comm p2.length p1.length]
      exact fwdLoop_swap p1 p2 table ptmList cumTol indTol hc
        (p1.length + p2.length) 0 0 0 0
        ⟨List.replicate (max p1.length p2.length) false,
         List.replicate (max p1.length p2.length) false,
         List.replicate (max p1.length p2.length) false⟩
    rw [h1]
    simp only [swapSt]
    by_cases hall : (fwdLoop p1 p2 table ptmList cumTol indTol
        (p1.length + p2.length) 0 0 0 0
        ⟨List.replicate (max p1.length p2.length) false,
         List.replicate (max p1.length p2.length) false,
         List.replicate (max p1.length p2.length) false⟩).aa.all (fun b => b) = true
    · rw [if_pos hall, if_pos hall]
    · rw [if_neg hall, if_neg hall]
      dsimp only
      have h2 : bwdLoop p2 p1 table ptmList cumTol indTol
          ((fwdLoop p1 p2 table ptmList cumTol indTol (p1.length + p2.length)
            0 0 0 0
            ⟨List.replicate (max p1.length p2.length) false,
             List.replicate (max p1.length p2.length) false,
             List.replicate (max p1.length p2.length) false⟩).aa.findIdx (fun b => !b))
          (p2.length + p1.length) p2.length p1.length 0 0
          ⟨(fwdLoop p1 p2 table ptmList cumTol indTol (p1.length + p2.length)
              0 0 0 0
              ⟨List.replicate (max p1.length p2.length) false,
               List.replicate (max p1.length p2.length) false,
               List.replicate (max p1.length p2.length) false⟩).aa,
           (fwdLoop p1 p2 table ptmList cumTol indTol (p1.length + p2.length)
              0 0 0 0
              ⟨List.replicate (max p1.length p2.length) false,
               List.replicate (max p1.length p2.length) false,
               List.replicate (max p1.length p2.length) false⟩).ptm2,
           (fwdLoop p1 p2 table ptmList cumTol indTol (p1.length + p2.length)
              0 0 0 0
              ⟨List.replicate (max p1.length p2.length) false,
               List.replicate (max p1.length p2.length) false,
               List.replicate (max p1.length p2.length) false⟩).ptm1⟩ =
          swapSt (bwdLoop p1 p2 table ptmList cumTol indTol
            ((fwdLoop p1 p2 table ptmList cumTol indTol (p1.length + p2.length)
              0 0 0 0
              ⟨List.replicate (max p1.length p2.length) false,
               List.replicate (max p1.length p2.length) false,
               List.replicate (max p1.length p2.length) false⟩).aa.findIdx (fun b => !b))
            (p1.length + p2.length) p1.length p2.length 0 0
            ⟨(fwdLoop p1 p2 table ptmList cumTol indTol (p1.length + p2.length)
                0 0 0 0
                ⟨List.replicate (max p1.length p2.length) false,
                 List.replicate (max p1.length p2.length) false,
                 List.replicate (max p1.length p2.length) false⟩).aa,
             (fwdLoop p1 p2 table ptmList cumTol indTol (p1.length + p2.length)
                0 0 0 0
                ⟨List.replicate (max p1.length p2.length) false,
                 List.replicate (max p1.length p2.length) false,
                 List.replicate (max p1.length p2.length) false⟩).ptm1,
             (fwdLoop p1 p2 table ptmList cumTol indTol (p1.length + p2.length)
                0 0 0 0
                ⟨List.replicate (max p1.length p2.length) false,
                 List.replicate (max p1.length p2.length) false,
                 List.replicate (max p1.length p2.length) false⟩).ptm2⟩) := by
        rw [Nat.add_comm p2.length p1.length]
        exact bwdLoop_swap p1 p2 table ptmList cumTol indTol _ hc _ _ _ 0 0 _
      rw [h2]
      simp only [swapSt]
  · push_neg at hc
    simp only [aa_match, aa_match_fwd]
    rw [fwdLoop_const p1 p2 table ptmList cumTol indTol hc,
      fwdLoop_const p2 p1 table ptmList cumTol indTol hc]
    dsimp only
    rw [Nat.max_comm p2.length p1.length]
    by_cases hn : max p1.length p2.length = 0
    · rw [hn]
      simp
    · rw [replicate_all_false hn]
      simp only [Bool.false_eq_true, if_false]
      rw [replicate_findIdx_false hn]
      rw [bwdLoop_const p1 p2 table ptmList cumTol indTol _ hc,
        bwdLoop_const p2 p1 table ptmList cumTol indTol _ hc]

/-- C3: swapping truth and prediction leaves the amino-acid match array
and the whole-sequence match flag unchanged and exchanges the roles of the
two PTM-match arrays. -/
theorem c3_swap_roles (p1 p2 : List Token) (table : MassTable)
    (ptmList : List Token) (cumTol indTol : ℚ) (mode : String) :
    (aa_match p2 p1 table ptmList cumTol indTol mode).1 =
      (aa_match p1 p2 table ptmList cumTol indTol mode).1 ∧
    (aa_match p2 p1 table ptmList cumTol indTol mode).2.1 =
      (aa_match p1 p2 table ptmList cumTol indTol mode).2.1 ∧
    (aa_match p2 p1 table ptmList cumTol indTol mode).2.2.1 =
      (aa_match p1 p2 table ptmList cumTol indTol mode).2.2.2 ∧
    (aa_match p2 p1 table ptmList cumTol indTol mode).2.2.2 =
      (aa_match p1 p2 table ptmList cumTol indTol mode).2.2.1 := by
  have h := aa_match_swap_eq p1 p2 table ptmList cumTol indTol mode
  exact ⟨by rw [h], by rw [h], by rw [h], by rw [h]⟩

/-- C5: the `mode` parameter of `aa_match` is accepted but never used, so
any two modes produce identical outputs. -/
theorem c5_mode_ignored (p1 p2 : List Token) (table : MassTable)
    (ptmList : List Token) (cumTol indTol : ℚ) (mode mode' : String) :
    aa_match p1 p2 table ptmList cumTol indTol mode =
      aa_match p1 p2 table ptmList cumTol indTol mode' := rfl

/-- C9: applied directly to two empty peptides, `aa_match` returns empty
boolean arrays and a whole-sequence flag of `true` (the conjunction over an
empty array), whereas the batch evaluator records `false` for every pair
whose prediction is empty. -/
theorem c9_empty_vs_batch (p1 : List Token) (table : MassTable)
    (ptmList : List Token) (cumTol indTol : ℚ) (mode : String) :
    aa_match [] [] table ptmList cumTol indTol mode = ([], true, [], []) ∧
    (pairVerdict p1 [] table ptmList cumTol indTol mode).2.1 = false := by
  constructor
  · rfl
  · rfl

/-! ### C2: tolerance monotonicity -/

theorem countTrue_mono (l : List Bool) :
    ∀ l' : List Bool, l.length = l'.length →
      (∀ j, l.getD j false = true → l'.getD j false = true) →
      countTrue l ≤ countTrue l' := by
  induction l with
  | nil => intro l' _ _; exact Nat.zero_le _
  | cons a l ih =>
    intro l' hlen hdom
    cases l' with
    | nil => simp at hlen
    | cons a' l'' =>
      have h0 : a = true → a' = true := by
        intro ha
        have := hdom 0
        simpa [List.getD] using this (by simpa [List.getD] using ha)
      have hrest := ih l'' (by simpa using hlen) (fun j hj => by
        have := hdom (j + 1)
        simpa [List.getD] using this (by simpa [List.getD] using hj))
      simp only [countTrue, List.countP_cons] at *
      cases a with
      | false => simp; omega
      | true => simp [h0 rfl]; omega

theorem fwdLoop_mono (p1 p2 : List Token) (table : MassTable)
    (ptmList : List Token) (cumTol : ℚ) {indTol indTol' : ℚ}
    (hle : indTol ≤ indTol') :
    ∀ fuel i1 i2 c1 c2 st st',
      st.aa.length = st'.aa.length →
      (∀ j, st.aa.getD j false = true → st'.aa.getD j false = true) →
      ∀ j, (fwdLoop p1 p2 table ptmList cumTol indTol fuel i1 i2 c1 c2 st).aa.getD j false = true →
        (fwdLoop p1 p2 table ptmList cumTol indTol' fuel i1 i2 c1 c2 st').aa.getD j false = true := by
  intro fuel
  induction fuel with
  | zero => intro i1 i2 c1 c2 st st' _ hdom j; exact hdom j
  | succ f ih =>
    intro i1 i2 c1 c2 st st' hlen hdom j
    rw [fwdLoop, fwdLoop]
    by_cases h : i1 < p1.length ∧ i2 < p2.length
    · rw [dif_pos h, dif_pos h]
      dsimp only
      by_cases hcum : |massDiff (c1 + massOf table (p1.get ⟨i1, h.1⟩))
          (c2 + massOf table (p2.get ⟨i2, h.2⟩))| < cumTol
      · rw [if_pos hcum, if_pos hcum]
        apply ih
        · simp [hlen]
        · intro j' hj'
          by_cases hje : max i1 i2 = j'
          · subst hje
            by_cases hlt : max i1 i2 < st.aa.length
            · rw [getD_set_self _ _ _ (by rw [← hlen]; exact hlt)]
              rw [getD_set_self _ _ _ hlt] at hj'
              rw [decide_eq_true_eq] at hj'
              exact decide_eq_true (lt_of_lt_of_le hj' hle)
            · push_neg at hlt
              rw [List.set_eq_of_length_le hlt] at hj'
              rw [List.set_eq_of_length_le (by rw [← hlen]; exact hlt)]
              exact hdom _ hj'
          · rw [getD_set_ne _ _ _ _ hje] at hj'
            rw [getD_set_ne _ _ _ _ hje]
            exact hdom _ hj'
      · rw [if_neg hcum, if_neg hcum]
        split_ifs
        · exact ih _ _ _ _ _ _ hlen hdom j
        · exact ih _ _ _ _ _ _ hlen hdom j
    · rw [dif_neg h, dif_neg h]
      exact hdom j

/-- C2 (amended): with the peptides, table, PTM set and `cumTol` fixed,
increasing `indTol` never decreases the number of true entries in the
match array of the forward pass `aa_match_prefix`.  (For the full
two-pass `aa_match`, monotonicity fails even in `indTol` alone, and it
fails in `cumTol` already for the forward pass; see the counterexample.) -/
theorem c2_indTol_mono_fwd (p1 p2 : List Token) (table : MassTable)
    (ptmList : List Token) (cumTol : ℚ) (indTol indTol' : ℚ)
    (hle : indTol ≤ indTol') :
    countTrue (aa_match_fwd p1 p2 table ptmList cumTol indTol).1 ≤
      countTrue (aa_match_fwd p1 p2 table ptmList cumTol indTol').1 := by
  simp only [aa_match_fwd]
  apply countTrue_mono
  · rw [fwdLoop_aa_length, fwdLoop_aa_length]
  · exact fwdLoop_mono p1 p2 table ptmList cumTol hle _ 0 0 0 0 _ _ rfl
      (fun j hj => hj)

set_option maxHeartbeats 1000000 in
/-- C2 counterexample: the claim as stated fails on the code.  With
masses `a = 1, b = 2`, aligning `[b]` against `[a, a]` yields 2 true
entries at tolerances `(cumTol, indTol) = (1/2, 3/2)` but only 1 at the
componentwise larger `(3/2, 3/2)`.  Monotonicity in `indTol` alone also
fails for the two-pass aligner: with masses `a = 1, b = 2, c = d = e = 4`,
aligning `[a, c, b, e]` against `[b, d]` at `cumTol = 5/2` yields 3 true
entries at `indTol = 1` but only 2 at `indTol = 3`. -/
theorem c2_mono_cex :
    countTrue (aa_match [['b']] [['a'], ['a']]
        [(['a'], 1), (['b'], 2)] [] (3/2) (3/2) "best").1 <
      countTrue (aa_match [['b']] [['a'], ['a']]
        [(['a'], 1), (['b'], 2)] [] (1/2) (3/2) "best").1 ∧
    countTrue (aa_match [['a'], ['c'], ['b'], ['e']] [['b'], ['d']]
        [(['a'], 1), (['b'], 2), (['c'], 4), (['d'], 4), (['e'], 4)] []
        (5/2) 3 "best").1 <
      countTrue (aa_match [['a'], ['c'], ['b'], ['e']] [['b'], ['d']]
        [(['a'], 1), (['b'], 2), (['c'], 4), (['d'], 4), (['e'], 4)] []
        (5/2) 1 "best").1 := by
  have ha : massOf [(['a'], 1), (['b'], 2)] ['a'] = 1 := rfl
  have hb : massOf [(['a'], 1), (['b'], 2)] ['b'] = 2 := rfl
  have ha2 : massOf [(['a'], 1), (['b'], 2), (['c'], 4), (['d'], 4), (['e'], 4)] ['a'] = 1 := rfl
  have hb2 : massOf [(['a'], 1), (['b'], 2), (['c'], 4), (['d'], 4), (['e'], 4)] ['b'] = 2 := rfl
  have hc2 : massOf [(['a'], 1), (['b'], 2), (['c'], 4), (['d'], 4), (['e'], 4)] ['c'] = 4 := rfl
  have hd2 : massOf [(['a'], 1), (['b'], 2), (['c'], 4), (['d'], 4), (['e'], 4)] ['d'] = 4 := rfl
  have he2 : massOf [(['a'], 1), (['b'], 2), (['c'], 4), (['d'], 4), (['e'], 4)] ['e'] = 4 := rfl
  constructor
  · norm_num [aa_match, aa_match_fwd, fwdLoop, bwdLoop, massDiff, ha, hb,
      countTrue, List.findIdx]
    decide
  · have hf1 : fwdLoop [['a'], ['c'], ['b'], ['e']] [['b'], ['d']]
        [(['a'], 1), (['b'], 2), (['c'], 4), (['d'], 4), (['e'], 4)] []
        (5/2) 1 6 0 0 0 0
        ⟨[false, false, false, false], [false, false, false, false],
         [false, false, false, false]⟩ =
        ⟨[false, true, false, false], [false, false, false, false],
         [false, false, false, false]⟩ := by
      rw [fwdLoop]
      norm_num [massDiff, ha2, hb2, hc2, hd2, he2]
      rw [fwdLoop]
      norm_num [massDiff, ha2, hb2, hc2, hd2, he2]
      rw [fwdLoop]
      norm_num [massDiff, ha2, hb2, hc2, hd2, he2]
    have hb1 : bwdLoop [['a'], ['c'], ['b'], ['e']] [['b'], ['d']]
        [(['a'], 1), (['b'], 2), (['c'], 4), (['d'], 4), (['e'], 4)] []
        (5/2) 1 0 6 4 2 0 0
        ⟨[false, true, false, false], [false, false, false, false],
         [false, false, false, false]⟩ =
        ⟨[false, true, true, true], [false, false, false, false],
         [false, false, false, false]⟩ := by
      rw [bwdLoop]
      norm_num [massDiff, ha2, hb2, hc2, hd2, he2]
      rw [bwdLoop]
      norm_num [massDiff, ha2, hb2, hc2, hd2, he2]
      rw [bwdLoop]
      norm_num [massDiff, ha2, hb2, hc2, hd2, he2]
    have hf3 : fwdLoop [['a'], ['c'], ['b'], ['e']] [['b'], ['d']]
        [(['a'], 1), (['b'], 2), (['c'], 4), (['d'], 4), (['e'], 4)] []
        (5/2) 3 6 0 0 0 0
        ⟨[false, false, false, false], [false, false, false, false],
         [false, false, false, false]⟩ =
        ⟨[true, true, false, false], [false, false, false, false],
         [false, false, false, false]⟩ := by
      rw [fwdLoop]
      norm_num [massDiff, ha2, hb2, hc2, hd2, he2]
      rw [fwdLoop]
      norm_num [massDiff, ha2, hb2, hc2, hd2, he2]
      rw [fwdLoop]
      norm_num [massDiff, ha2, hb2, hc2, hd2, he2]
    have hb3 : bwdLoop [['a'], ['c'], ['b'], ['e']] [['b'], ['d']]
        [(['a'], 1), (['b'], 2), (['c'], 4), (['d'], 4), (['e'], 4)] []
        (5/2) 3 2 6 4 2 0 0
        ⟨[true, true, false, false], [false, false, false, false],
         [false, false, false, false]⟩ =
        ⟨[true, true, false, false], [false, false, false, false],
         [false, false, false, false]⟩ := by
      rw [bwdLoop]
      norm_num
    norm_num [aa_match, aa_match_fwd, List.replicate_succ, hf1, hb1, hf3, hb3,
      countTrue, List.findIdx, List.findIdx.go]

/-- Witness for `c2_indTol_mono_fwd` at equal tolerances. -/
theorem c2_indTol_mono_fwd_witness :
    countTrue (aa_match_fwd [['a']] [['a']] [(['a'], 1)] [] 1 1).1 ≤
      countTrue (aa_match_fwd [['a']] [['a']] [(['a'], 1)] [] 1 1).1 :=
  c2_indTol_mono_fwd [['a']] [['a']] [(['a'], 1)] [] 1 1 1 le_rfl

/-- C1 (amended): aligning a non-empty tokenized peptide against itself
with strictly positive tolerances yields an all-true match array and a
whole-sequence match flag of `true`.  (The claim's `cumTol ≥ 0, indTol ≥ 0`
fails at zero tolerance because the source compares with strict `<`; see
the counterexample.) -/
theorem c1_identity (p : List Token) (table : MassTable) (ptmList : List Token)
    (cumTol indTol : ℚ) (mode : String)
    (hp : p ≠ []) (hc : 0 < cumTol) (hi : 0 < indTol) :
    (aa_match p p table ptmList cumTol indTol mode).1 =
      List.replicate p.length true ∧
    (aa_match p p table ptmList cumTol indTol mode).2.1 = true := by
  have hgd := fwdLoop_self_getD p table ptmList cumTol indTol hc hi
    (p.length + p.length) 0 0
    ⟨List.replicate p.length false, List.replicate p.length false,
     List.replicate p.length false⟩
    (by simp) (by omega)
  have hlen : (fwdLoop p p table ptmList cumTol indTol (p.length + p.length) 0 0 0 0
      ⟨List.replicate p.length false, List.replicate p.length false,
       List.replicate p.length false⟩).aa.length = p.length := by
    rw [fwdLoop_aa_length]
    simp
  have haa : (fwdLoop p p table ptmList cumTol indTol (p.length + p.length) 0 0 0 0
      ⟨List.replicate p.length false, List.replicate p.length false,
       List.replicate p.length false⟩).aa =
      List.replicate p.length true := by
    apply eq_of_getD_eq _ _ (by simp [hlen])
    intro j hj
    rw [hlen] at hj
    rw [hgd j, if_pos (by omega)]
    simp [List.getD, List.getElem?_replicate, hj]
  simp only [aa_match, aa_match_fwd, Nat.max_self]
  rw [haa]
  simp

/-- C1 counterexample: at `cumTol = indTol = 0` (allowed by the claim's
"tolerances ≥ 0"), aligning `[a]` against itself yields an all-false match
array and a whole-sequence flag of `false`, because the source compares
mass differences with strict `<`. -/
theorem c1_identity_cex :
    (aa_match [['a']] [['a']] [(['a'], 1)] [] 0 0 "best").1 = [false] ∧
    (aa_match [['a']] [['a']] [(['a'], 1)] [] 0 0 "best").2.1 = false := by
  constructor <;>
    norm_num [aa_match, aa_match_fwd, fwdLoop, bwdLoop, massOf, massDiff,
      List.find?, List.findIdx]

/-- Witness for `c1_identity` at `p = [a]`, `cumTol = indTol = 1`. -/
theorem c1_identity_witness :
    (aa_match [['a']] [['a']] [(['a'], 1)] [] 1 1 "best").1 =
      List.replicate 1 true ∧
    (aa_match [['a']] [['a']] [(['a'], 1)] [] 1 1 "best").2.1 = true :=
  c1_identity [['a']] [(['a'], 1)] [] 1 1 "best" (by decide) one_pos one_pos

/-! ### C4: empty prediction in the batch evaluator -/

/-- C4: for a non-empty truth peptide paired with an empty prediction, the
batch evaluator records an all-false verdict sized to the truth length with
whole-sequence match `false`, taken from the dedicated branch
(`pairVerdict`'s first arm) rather than from an aligner walk. -/
theorem c4_empty_prediction (p1 : List Token) (r1 r2 : List PepIn)
    (table : MassTable) (ptmList : List Token) (cumTol indTol : ℚ)
    (mode : String) (V : List (List Bool × Bool × List Bool × List Bool))
    (a1 a2 t1 t2 : Nat) (hp : p1 ≠ [])
    (hb : aa_match_batch (.toks p1 :: r1) (.toks [] :: r2) table ptmList
      cumTol indTol mode = .ok (V, a1, a2, t1, t2)) :
    pairVerdict p1 [] table ptmList cumTol indTol mode =
      (List.replicate p1.length false, false, List.replicate p1.length false,
       List.replicate p1.length false) ∧
    V.head? = some (List.replicate p1.length false, false,
      List.replicate p1.length false, List.replicate p1.length false) := by
  have hpv : pairVerdict p1 [] table ptmList cumTol indTol mode =
      (List.replicate p1.length false, false, List.replicate p1.length false,
       List.replicate p1.length false) := rfl
  refine ⟨hpv, ?_⟩
  simp only [aa_match_batch] at hb
  rcases hfind : ptmList.find? (fun ptm => !hasKey table ptm) with _ | p
  · rw [hfind] at hb
    simp only [List.zip_cons_cons, batchLoop, resolvePep] at hb
    rcases hrest : batchLoop table ptmList cumTol indTol mode (List.zipWith Prod.mk r1 r2) with e | r
    · rw [hrest] at hb
      simp at hb
    · rw [hrest] at hb
      simp only [Except.ok.injEq, Prod.mk.injEq] at hb
      rw [← hb.1, List.head?_cons, hpv]
  · rw [hfind] at hb
    simp at hb

/-- Witness for `c4_empty_prediction` on the one-pair batch `[a]` vs `[]`. -/
theorem c4_empty_prediction_witness :
    pairVerdict [['a']] [] [(['a'], 1)] [] 1 1 "best" =
      (List.replicate 1 false, false, List.replicate 1 false,
       List.replicate 1 false) ∧
    List.head? [(List.replicate 1 false, false, List.replicate 1 false,
      List.replicate 1 false)] = some (List.replicate 1 false, false,
      List.replicate 1 false, List.replicate 1 false) :=
  c4_empty_prediction [['a']] [] [] [(['a'], 1)] [] 1 1 "best"
    [(List.replicate 1 false, false, List.replicate 1 false,
      List.replicate 1 false)] 1 0 0 0 (by decide) rfl

/-! ### C10: surplus peptides of the longer list are ignored -/

theorem zip_take_min (l1 : List PepIn) :
    ∀ l2 : List PepIn, l1.zip l2 =
      (l1.take (min l1.length l2.length)).zip
        (l2.take (min l1.length l2.length)) := by
  induction l1 with
  | nil => intro l2; simp
  | cons a l1 ih =>
    intro l2
    cases l2 with
    | nil => simp
    | cons b l2 =>
      simp only [List.length_cons]
      have hmin : min (l1.length + 1) (l2.length + 1) =
          min l1.length l2.length + 1 := by omega
      rw [hmin]
      simp only [List.take_succ_cons, List.zip_cons_cons]
      rw [← ih l2]

/-- C10: when the two peptide lists differ in length, no error results from
the mismatch: the batch evaluator processes exactly the first
`min |truths| |preds|` pairs (Python's `zip` truncation), and the surplus
elements of the longer list contribute nothing to the verdicts or counts —
the run is identical to one on the truncated lists. -/
theorem c10_zip_truncation (ps1 ps2 : List PepIn) (table : MassTable)
    (ptmList : List Token) (cumTol indTol : ℚ) (mode : String) :
    aa_match_batch ps1 ps2 table ptmList cumTol indTol mode =
      aa_match_batch (ps1.take (min ps1.length ps2.length))
        (ps2.take (min ps1.length ps2.length)) table ptmList cumTol indTol
        mode := by
  simp only [aa_match_batch]
  rw [← zip_take_min]

/-! ### C8: the PTM configuration check -/

theorem resolvePep_error_msg (table : MassTable) (q : PepIn) (e : String)
    (h : resolvePep table q = .error e) : e = "TokenizationError" := by
  cases q with
  | raw s =>
    simp only [resolvePep, split_peptide] at h
    split at h
    · cases h
    · cases h
      rfl
  | toks t => cases h

theorem batchLoop_error_msg (table : MassTable) (ptmList : List Token)
    (cumTol indTol : ℚ) (mode : String) :
    ∀ (pairs : List (PepIn × PepIn)) (e : String),
      batchLoop table ptmList cumTol indTol mode pairs = .error e →
      e = "TokenizationError" := by
  intro pairs
  induction pairs with
  | nil => intro e h; cases h
  | cons qq rest ih =>
    intro e h
    rcases qq with ⟨q1, q2⟩
    simp only [batchLoop] at h
    rcases h1 : resolvePep table q1 with e1 | p1
    · rw [h1] at h
      cases h
      exact resolvePep_error_msg table q1 _ h1
    · rw [h1] at h
      rcases h2 : resolvePep table q2 with e2 | p2
      · rw [h2] at h
        cases h
        exact resolvePep_error_msg table q2 _ h2
      · rw [h2] at h
        rcases h3 : batchLoop table ptmList cumTol indTol mode rest with e3 | r
        · rw [h3] at h
          cases h
          exact ih _ h3
        · rw [h3] at h
          cases h

/-- C8: the batch evaluator fails with the configuration error exactly when
some configured PTM token is missing from the mass table, and in that case
the failure is decided before any pair is examined: the result does not
depend on the peptide lists at all. -/
theorem c8_ptm_check (ps1 ps2 qs1 qs2 : List PepIn) (table : MassTable)
    (ptmList : List Token) (cumTol indTol : ℚ) (mode : String) :
    (ptmList.any (fun ptm => !hasKey table ptm) = true ↔
      aa_match_batch ps1 ps2 table ptmList cumTol indTol mode =
        .error "ConfigurationError") ∧
    (ptmList.any (fun ptm => !hasKey table ptm) = true →
      aa_match_batch ps1 ps2 table ptmList cumTol indTol mode =
        aa_match_batch qs1 qs2 table ptmList cumTol indTol mode) := by
  rcases hfind : ptmList.find? (fun ptm => !hasKey table ptm) with _ | p
  · have hany : ptmList.any (fun ptm => !hasKey table ptm) = false := by
      rw [List.any_eq_false]
      intro x hx
      have := List.find?_eq_none.mp hfind x hx
      simpa using this
    constructor
    · rw [hany]
      simp only [aa_match_batch, hfind]
      constructor
      · intro h
        cases h
      · intro h
        have := batchLoop_error_msg table ptmList cumTol indTol mode _ _ h
        simp at this
    · intro h
      rw [hany] at h
      cases h
  · have hmem := List.mem_of_find?_eq_some hfind
    have hprop := List.find?_some hfind
    have hany : ptmList.any (fun ptm => !hasKey table ptm) = true :=
      List.any_eq_true.mpr ⟨p, hmem, hprop⟩
    constructor
    · rw [hany]
      simp only [aa_match_batch, hfind]
    · intro _
      simp only [aa_match_batch, hfind]

/-! ### C7: the tokenizer -/

theorem greedy_join_length (keys : List Token) :
    ∀ fuel (s : List Char), s.length ≤ fuel →
      (greedyScan keys fuel s).1.flatten.length + (greedyScan keys fuel s).2 =
        s.length := by
  intro fuel
  induction fuel with
  | zero =>
    intro s hm
    have : s = [] := List.length_eq_zero.mp (by omega)
    subst this
    rfl
  | succ f ih =>
    intro s hm
    cases s with
    | nil => rfl
    | cons c cs =>
      rw [greedyScan]
      simp only [List.length_cons] at hm
      cases hbk : bestKey (c :: cs) keys with
      | none =>
        dsimp only
        have := ih cs (by omega)
        simp only [List.length_cons]
        omega
      | some k =>
        dsimp only
        have hk := bestKey_some hbk
        have hkle : k.length ≤ cs.length + 1 := by
          have := isPrefixOf_length_le hk.2
          simpa using this
        have hdl : (List.drop k.length (c :: cs)).length ≤ f := by
          simp only [List.length_drop, List.length_cons]
          omega
        have := ih (List.drop k.length (c :: cs)) hdl
        simp only [List.flatten_cons, List.length_append,
          List.length_drop, List.length_cons] at this ⊢
        omega

theorem greedy_skip_zero (keys : List Token) :
    ∀ fuel (s : List Char), s.length ≤ fuel →
      (greedyScan keys fuel s).2 = 0 →
      (greedyScan keys fuel s).1.flatten = s := by
  intro fuel
  induction fuel with
  | zero =>
    intro s hm _
    have : s = [] := List.length_eq_zero.mp (by omega)
    subst this
    rfl
  | succ f ih =>
    intro s hm hz
    cases s with
    | nil => rfl
    | cons c cs =>
      rw [greedyScan] at hz ⊢
      simp only [List.length_cons] at hm
      cases hbk : bestKey (c :: cs) keys with
      | none =>
        rw [hbk] at hz
        simp at hz
      | some k =>
        rw [hbk] at hz
        dsimp only at hz ⊢
        have hk := bestKey_some hbk
        have hdl : (List.drop k.length (c :: cs)).length ≤ f := by
          have := isPrefixOf_length_le hk.2
          simp only [List.length_drop, List.length_cons]
          simp at this
          omega
        have := ih (List.drop k.length (c :: cs)) hdl hz
        simp only [List.flatten_cons, this]
        exact isPrefixOf_append_drop hk.2

/-- C7: the tokenizer either returns tokens whose concatenation is exactly
the input string, or fails; and it fails exactly when the greedy
longest-match scan leaves at least one input character unconsumed by the
table keys. -/
theorem c7_tokenizer (s : List Char) (table : MassTable) :
    reconstructsInput (split_peptide s table) s ∧
    ((split_peptide s table).isOk = false ↔
      (greedyScan (table.map Prod.fst) s.length s).2 ≠ 0) := by
  constructor
  · simp only [reconstructsInput, split_peptide]
    split
    · rename_i parts hok
      split at hok
      · cases hok
        assumption
      · cases hok
    · trivial
  · simp only [split_peptide]
    by_cases hjoin : (greedyScan (table.map Prod.fst) s.length s).1.flatten = s
    · rw [if_pos hjoin]
      simp only [Except.isOk, Except.toBool]
      constructor
      · intro h
        cases h
      · intro h
        have hlen := greedy_join_length (table.map Prod.fst) s.length s le_rfl
        rw [hjoin] at hlen
        omega
    · rw [if_neg hjoin]
      simp only [Except.isOk, Except.toBool]
      constructor
      · intro _
        intro hz
        exact hjoin (greedy_skip_zero (table.map Prod.fst) s.length s le_rfl hz)
      · intro _
        trivial

/-- Witness for `c7_tokenizer` on the string `ab` over keys `a`, `b`. -/
theorem c7_tokenizer_witness :
    reconstructsInput
      (split_peptide ['a', 'b'] [(['a'], 1), (['b'], 2)]) ['a', 'b'] ∧
    ((split_peptide ['a', 'b'] [(['a'], 1), (['b'], 2)]).isOk = false ↔
      (greedyScan ([(['a'], (1:ℚ)), (['b'], 2)].map Prod.fst) 2
        ['a', 'b']).2 ≠ 0) :=
  c7_tokenizer ['a', 'b'] [(['a'], 1), (['b'], 2)]

/-! ### C6: bounds of the aggregated metrics -/

theorem insertDesc_length (x : ℚ × Bool) :
    ∀ l : List (ℚ × Bool), (insertDesc x l).length = l.length + 1 := by
  intro l
  induction l with
  | nil => rfl
  | cons y ys ih =>
    simp only [insertDesc]
    split_ifs <;> simp [ih]

theorem sortDesc_length :
    ∀ l : List (ℚ × Bool), (sortDesc l).length = l.length := by
  intro l
  induction l with
  | nil => rfl
  | cons x xs ih => simp [sortDesc, insertDesc_length, ih]

theorem trapz_pr_aux (n : ℚ) (hn : 0 < n) :
    ∀ (bs : List Bool) (b : Bool) (cum k : Nat),
      cum + (if b then 1 else 0) ≤ k + 1 →
      0 ≤ trapz (prPoints n (b :: bs) cum k) ∧
      trapz (prPoints n (b :: bs) cum k) ≤ (countTrue bs : ℚ) / n := by
  intro bs
  induction bs with
  | nil =>
    intro b cum k _
    constructor
    · simp [prPoints, trapz]
    · simp [prPoints, trapz, countTrue]
  | cons b' rest ih =>
    intro b cum k hck
    have hck1 : (cum + (if b then 1 else 0)) + (if b' then 1 else 0) ≤
        (k + 1) + 1 := by
      have he : (if b' then 1 else 0) ≤ 1 := by split_ifs <;> omega
      omega
    have hrec := ih b' (cum + (if b then 1 else 0)) (k + 1) hck1
    simp only [prPoints, trapz] at hrec ⊢
    have hy0a : (0:ℚ) ≤ ((cum + (if b then 1 else 0) : Nat) : ℚ) / ((k + 1 : Nat) : ℚ) := by
      apply div_nonneg (by positivity) (by positivity)
    have hy0b : ((cum + (if b then 1 else 0) : Nat) : ℚ) / ((k + 1 : Nat) : ℚ) ≤ 1 := by
      apply div_le_one_of_le
      · exact_mod_cast hck
      · positivity
    have hy1a : (0:ℚ) ≤ ((cum + (if b then 1 else 0) + (if b' then 1 else 0) : Nat) : ℚ) /
        ((k + 1 + 1 : Nat) : ℚ) := by
      apply div_nonneg (by positivity) (by positivity)
    have hy1b : ((cum + (if b then 1 else 0) + (if b' then 1 else 0) : Nat) : ℚ) /
        ((k + 1 + 1 : Nat) : ℚ) ≤ 1 := by
      apply div_le_one_of_le
      · exact_mod_cast hck1
      · positivity
    have hdx : (0:ℚ) ≤ ((cum + (if b then 1 else 0) + (if b' then 1 else 0) : Nat) : ℚ) / n -
        ((cum + (if b then 1 else 0) : Nat) : ℚ) / n := by
      rw [div_sub_div_same]
      apply div_nonneg _ (le_of_lt hn)
      have : ((cum + (if b then 1 else 0) : Nat) : ℚ) ≤
          ((cum + (if b then 1 else 0) + (if b' then 1 else 0) : Nat) : ℚ) := by
        exact_mod_cast Nat.le_add_right _ _
      linarith
    have hdxval : ((cum + (if b then 1 else 0) + (if b' then 1 else 0) : Nat) : ℚ) / n -
        ((cum + (if b then 1 else 0) : Nat) : ℚ) / n = ((if b' then 1 else 0 : Nat) : ℚ) / n := by
      rw [div_sub_div_same]
      congr 1
      push_cast
      ring
    constructor
    · apply add_nonneg
      · nlinarith [hdx, hy0a, hy1a]
      · exact hrec.1
    · have hterm : (((cum + (if b then 1 else 0) + (if b' then 1 else 0) : Nat) : ℚ) / n -
          ((cum + (if b then 1 else 0) : Nat) : ℚ) / n) *
          (((cum + (if b then 1 else 0) : Nat) : ℚ) / ((k + 1 : Nat) : ℚ) +
           ((cum + (if b then 1 else 0) + (if b' then 1 else 0) : Nat) : ℚ) /
             ((k + 1 + 1 : Nat) : ℚ)) / 2 ≤
          ((if b' then 1 else 0 : Nat) : ℚ) / n := by
        rw [← hdxval]
        have h2 : (((cum + (if b then 1 else 0) : Nat) : ℚ) / ((k + 1 : Nat) : ℚ) +
            ((cum + (if b then 1 else 0) + (if b' then 1 else 0) : Nat) : ℚ) /
              ((k + 1 + 1 : Nat) : ℚ)) ≤ 2 := by linarith
        nlinarith
      have hsum : countTrue (b' :: rest) = (if b' then 1 else 0) + countTrue rest := by
        cases b' <;> simp [countTrue, List.countP_cons, Nat.add_comm]
      calc _ ≤ ((if b' then 1 else 0 : Nat) : ℚ) / n + (countTrue rest : ℚ) / n := by
              have := hrec.2
              linarith [hterm, this]
        _ = ((countTrue (b' :: rest) : Nat) : ℚ) / n := by
              rw [hsum]
              push_cast
              ring
        _ ≤ _ := le_refl _

theorem trapz_prPoints_bounds (bs : List Bool) (h2 : 2 ≤ bs.length) :
    0 ≤ trapz (prPoints (bs.length : ℚ) bs 0 0) ∧
    trapz (prPoints (bs.length : ℚ) bs 0 0) ≤ 1 := by
  have hn : (0:ℚ) < (bs.length : ℚ) := by
    have : 0 < bs.length := by omega
    exact_mod_cast this
  cases bs with
  | nil => simp at h2
  | cons b rest =>
    have hck : 0 + (if b then 1 else 0) ≤ 0 + 1 := by split_ifs <;> omega
    have h := trapz_pr_aux (List.length (b :: rest) : ℚ) hn rest b 0 0 hck
    refine ⟨h.1, le_trans h.2 ?_⟩
    apply div_le_one_of_le
    · have : countTrue rest ≤ rest.length := List.countP_le_length _
      have : countTrue rest ≤ (b :: rest).length := by
        simp only [List.length_cons]
        omega
      exact_mod_cast this
    · positivity

theorem eps_pos : (0:ℚ) < eps := by norm_num [eps]

/-- C6 (amended): for every batch tally produced by the batch evaluator,
when the metric aggregator succeeds (matching score list, at least two
pairs) all six metrics are nonnegative, and `pep_precision` and
`curve_auc` lie in `[0, 1]`.  The other four ratios are not bounded by 1:
the two-pass aligner can credit more matches than one side has tokens (see
the counterexample). -/
theorem c6_metric_bounds (ps1 ps2 : List PepIn) (table : MassTable)
    (ptmList : List Token) (cumTol indTol : ℚ) (mode : String)
    (V : List (List Bool × Bool × List Bool × List Bool))
    (a1 a2 t1 t2 : Nat) (scores : List ℚ)
    (hb : aa_match_batch ps1 ps2 table ptmList cumTol indTol mode =
      .ok (V, a1, a2, t1, t2))
    (hs : scores.length = V.length) (h2 : 2 ≤ V.length) :
    metricsInRange (aa_match_metrics V a1 a2 t1 t2 scores) := by
  have hlen : ((sortDesc (scores.zip (V.map (fun v => v.2.1)))).map
      Prod.snd).length = V.length := by
    rw [List.length_map, sortDesc_length, List.length_zip, List.length_map,
      hs, Nat.min_self]
  simp only [aa_match_metrics]
  rw [if_neg (by omega : ¬scores.length ≠ V.length)]
  rw [if_neg (by omega : ¬((sortDesc (scores.zip (V.map (fun v => v.2.1)))).map
      Prod.snd).length < 2)]
  simp only [metricsInRange]
  have hauc := trapz_prPoints_bounds
    ((sortDesc (scores.zip (V.map (fun v => v.2.1)))).map Prod.snd)
    (by omega)
  have heps : (0:ℚ) < eps := eps_pos
  have hdenom : ∀ m : Nat, (0:ℚ) ≤ (m : ℚ) + eps := by
    intro m
    have := Nat.cast_nonneg (α := ℚ) m
    linarith
  refine ⟨?_, ?_, ⟨?_, ?_⟩, ?_, ?_, ?_, ?_⟩
  · exact div_nonneg (Nat.cast_nonneg _) (hdenom _)
  · exact div_nonneg (Nat.cast_nonneg _) (hdenom _)
  · exact div_nonneg (Nat.cast_nonneg _) (hdenom _)
  · apply div_le_one_of_le
    · have : V.countP (fun v => v.2.1) ≤ V.length := List.countP_le_length _
      have h1 : (V.countP (fun v => v.2.1) : ℚ) ≤ (V.length : ℚ) := by
        exact_mod_cast this
      linarith
    · exact hdenom _
  · exact div_nonneg (Nat.cast_nonneg _) (hdenom _)
  · exact div_nonneg (Nat.cast_nonneg _) (hdenom _)
  · rw [hlen] at hauc ⊢
    exact hauc.1
  · rw [hlen] at hauc ⊢
    exact hauc.2

set_option maxHeartbeats 1000000 in
/-- C6 counterexample: on the two-pair batch `([b], [a, a])` and
`([a, a], [b])` with masses `a = 1, b = 2`, PTM set `{b}` and tolerances
`(1/2, 3/2)`, the two-pass aligner credits 2 matches to each pair (the
backward pass re-consumes tokens already matched by the forward pass), so
the batch counts 4 correct amino acids against 3 truth and 3 predicted
tokens, and 2 correct PTMs against 1 on each side: `aa_precision`,
`aa_recall`, `ptm_recall` and `ptm_precision` all exceed 1. -/
theorem c6_bounds_cex :
    aa_match_batch [.toks [['b']], .toks [['a'], ['a']]]
        [.toks [['a'], ['a']], .toks [['b']]]
        [(['a'], 1), (['b'], 2)] [['b']] (1/2) (3/2) "best" =
      .ok ([([true, true], true, [true, true], [false, false]),
            ([true, true], true, [false, false], [true, true])],
           3, 3, 1, 1) ∧
    aa_match_metrics
        [([true, true], true, [true, true], [false, false]),
         ([true, true], true, [false, false], [true, true])] 3 3 1 1
        [1, 0] =
      .ok ⟨400000000/300000001, 400000000/300000001, 200000000/200000001,
           200000000/100000001, 200000000/100000001, 1/2⟩ ∧
    (1:ℚ) < 400000000/300000001 ∧ (1:ℚ) < 200000000/100000001 := by
  have ha : massOf [(['a'], 1), (['b'], 2)] ['a'] = 1 := rfl
  have hb : massOf [(['a'], 1), (['b'], 2)] ['b'] = 2 := rfl
  have hca : List.contains [(['b'] : Token)] ['a'] = false := rfl
  have hcb : List.contains [(['b'] : Token)] ['b'] = true := rfl
  have hfind : List.find? (fun ptm => !hasKey [(['a'], 1), (['b'], 2)] ptm)
      [['b']] = none := rfl
  have hA : aa_match [['b']] [['a'], ['a']] [(['a'], 1), (['b'], 2)] [['b']]
      (1/2) (3/2) "best" = ([true, true], true, [true, true], [false, false]) := by
    norm_num [aa_match, aa_match_fwd, fwdLoop, bwdLoop, massDiff, ha, hb,
      hca, hcb, List.findIdx, List.findIdx.go]
    decide
  have hB : aa_match [['a'], ['a']] [['b']] [(['a'], 1), (['b'], 2)] [['b']]
      (1/2) (3/2) "best" = ([true, true], true, [false, false], [true, true]) := by
    norm_num [aa_match, aa_match_fwd, fwdLoop, bwdLoop, massDiff, ha, hb,
      hca, hcb, List.findIdx, List.findIdx.go]
    decide
  refine ⟨?_, ?_, by norm_num, by norm_num⟩
  · simp only [aa_match_batch, hfind, List.zip_cons_cons, List.zip_nil_right,
      batchLoop, resolvePep, pairVerdict]
    norm_num [hA, hB, hca, hcb]
    decide
  · norm_num [aa_match_metrics, countTrue, sortDesc, insertDesc, prPoints,
      trapz, eps, List.findIdx]

/-- Witness for `c6_metric_bounds` on a two-pair batch with empty
predictions. -/
theorem c6_metric_bounds_witness :
    metricsInRange (aa_match_metrics
      [(List.replicate 1 false, false, List.replicate 1 false,
        List.replicate 1 false),
       (List.replicate 1 false, false, List.replicate 1 false,
        List.replicate 1 false)] 2 0 0 0 [0, 0]) :=
  c6_metric_bounds [.toks [['a']], .toks [['a']]] [.toks [], .toks []]
    [(['a'], 1)] [] 1 1 "best"
    [(List.replicate 1 false, false, List.replicate 1 false,
      List.replicate 1 false),
     (List.replicate 1 false, false, List.replicate 1 false,
      List.replicate 1 false)] 2 0 0 0 [0, 0] rfl rfl (by decide)

end NovoBench
